import Mathlib

/-!
Verification of the core pipeline of `logistic_lag_autocorr_patterns_app.py`
(GOOG lag prediction app).

We shallowly embed the data-handling functions of the script:

* `load_data` (script lines 38-52): inner-join of the two price tables on
  date, descending date sort, simple returns via `pct_change`, `dropna`.
* `prepare_features` (lines 54-62): lag feature columns via `shift(-lag)`,
  binary direction label `goog_up`, `dropna`, feature-name list.
* `TimeSeriesSplit(n_splits).split` (lines 115, 121): sklearn expanding
  window cross-validation over `n_samples` rows.
* per-fold metric computation (lines 129-135): accuracy, precision, recall,
  F1 and ROC-AUC via sklearn, where `roc_auc_score` fails with a
  `ValueError` when the test fold holds a single class.
* model-instance lifecycle of the run (lines 116, 125, 157): `select_model`
  is called once; the one instance is refit in every fold and for the
  full-sample fit.

Prices and returns are modelled as rationals, dates as integers.
-/

namespace LagApp

/-- Row of one parsed price CSV: a date and the adjusted close price
(script lines 39-44 after numeric normalisation). -/
structure PricePoint where
  date : Int
  price : Rat
deriving DecidableEq, Repr, Inhabited

/-- Row of the merged frame `pd.merge(goog, sp500, on="Date")`
(line 46): one common date with both prices. -/
structure MergedRow where
  date : Int
  goog_price : Rat
  sp_price : Rat
deriving DecidableEq, Repr, Inhabited

/-- Row of the frame returned by `load_data` (line 52): a common date,
both prices, and both simple returns. -/
structure AlignedRecord where
  date : Int
  goog_price : Rat
  sp_price : Rat
  goog_ret : Rat
  sp_ret : Rat
deriving DecidableEq, Repr, Inhabited

/-- Row of the frame returned by `prepare_features` (line 62), restricted
to the columns the pipeline consumes: the lag feature values (one list
entry per requested lag, in the supplied lag order) and the label
`goog_up` (line 59). -/
structure FeatureRecord where
  date : Int
  goog_lags : List Rat
  sp_lags : List Rat
  goog_up : Nat
deriving DecidableEq, Repr

/-- Inner join on `Date` (line 46): `pd.merge` keeps, for each left row in
order, every right row with the same date. -/
def merge (g s : List PricePoint) : List MergedRow :=
  g.flatMap fun gp =>
    (s.filter fun sp => sp.date == gp.date).map fun sp =>
      { date := gp.date, goog_price := gp.price, sp_price := sp.price }

/-- Descending-date comparison used by
`df.sort_values("Date", ascending=False)` (line 48). -/
def dateDesc (a b : MergedRow) : Prop := b.date ≤ a.date

instance : DecidableRel dateDesc := fun a b =>
  inferInstanceAs (Decidable (b.date ≤ a.date))

instance : IsTotal MergedRow dateDesc :=
  ⟨fun a b => Int.le_total b.date a.date⟩

instance : IsTrans MergedRow dateDesc :=
  ⟨fun _ _ _ h1 h2 => le_trans h2 h1⟩

/-- Sort of the merged frame by date, most recent first (line 48). -/
def sortByDateDesc (l : List MergedRow) : List MergedRow :=
  List.insertionSort dateDesc l

/-- Return computation of `pct_change` (lines 50-51) for one row: the row's
price divided by the price in the row directly above it (the previous row
of the descending-sorted frame, i.e. the adjacent more recent date),
minus one. -/
def mkReturnRow (prev cur : MergedRow) : AlignedRecord :=
  { date := cur.date
    goog_price := cur.goog_price
    sp_price := cur.sp_price
    goog_ret := cur.goog_price / prev.goog_price - 1
    sp_ret := cur.sp_price / prev.sp_price - 1 }

/-- Returns for every row that has a predecessor, walking down the sorted
frame (lines 50-51); the accumulator `prev` is the row directly above. -/
def computeReturnsFrom (prev : MergedRow) : List MergedRow → List AlignedRecord
  | [] => []
  | cur :: rest => mkReturnRow prev cur :: computeReturnsFrom cur rest

/-- Effect of `pct_change` (lines 50-51) followed by `dropna` (line 52):
the first row of the sorted frame has no predecessor, its return is NaN,
and `dropna` removes it; every later row keeps its computed return. -/
def computeReturns : List MergedRow → List AlignedRecord
  | [] => []
  | top :: rest => computeReturnsFrom top rest

/-- Embedding of `load_data` (lines 38-52): merge on date, sort descending
by date, compute simple returns, drop the NaN row. -/
def load_data (g s : List PricePoint) : List AlignedRecord :=
  computeReturns (sortByDateDesc (merge g s))

/-- Lag-column lookup for one row: `df[col].shift(-lag)` (lines 57-58)
places at row `i` the value of row `i + lag`, or NaN past the end.  The
result is `none` as soon as any requested lag lands out of bounds, which
is exactly when `dropna` (line 60) discards the row. -/
def lagValues (proj : AlignedRecord → Rat) (df : List AlignedRecord)
    (i : Nat) : List Nat → Option (List Rat)
  | [] => some []
  | k :: ks =>
    match df[i + k]? with
    | none => none
    | some v =>
      match lagValues proj df i ks with
      | none => none
      | some vs => some (proj v :: vs)

/-- Row `i` of the output of `prepare_features` if it survives `dropna`
(lines 54-60): all lag lookups must resolve; the label `goog_up` is 1 iff
the row's own return is nonnegative (line 59). -/
def buildRow (df : List AlignedRecord) (lags : List Nat) (i : Nat) :
    Option FeatureRecord :=
  match df[i]? with
  | none => none
  | some r =>
    match lagValues AlignedRecord.goog_ret df i lags with
    | none => none
    | some gl =>
      match lagValues AlignedRecord.sp_ret df i lags with
      | none => none
      | some sl =>
        some { date := r.date, goog_lags := gl, sp_lags := sl
               goog_up := if 0 ≤ r.goog_ret then 1 else 0 }

/-- Embedding of `prepare_features` (lines 54-62): the surviving rows in
order, and the feature-name list
`[f"goog_lag{lag}" for lag in lags] + [f"sp_lag{lag}" for lag in lags]`
(line 61), which follows the supplied order of `lags`. -/
def prepare_features (df : List AlignedRecord) (lags : List Nat) :
    List FeatureRecord × List String :=
  ((List.range df.length).filterMap (buildRow df lags),
   (lags.map fun k => "goog_lag" ++ toString k) ++
     (lags.map fun k => "sp_lag" ++ toString k))

/-- Explicit value of a surviving row of `prepare_features`: each lag
feature is the return stored `k` positions further down the frame. -/
def featureRowAt (df : List AlignedRecord) (lags : List Nat) (i : Nat) :
    FeatureRecord :=
  { date := (df.getD i default).date
    goog_lags := lags.map fun k => (df.getD (i + k) default).goog_ret
    sp_lags := lags.map fun k => (df.getD (i + k) default).sp_ret
    goog_up := if 0 ≤ (df.getD i default).goog_ret then 1 else 0 }

/-- Validation of `TimeSeriesSplit` (line 115 with `n_splits ≥ 2` enforced
at construction, and `split` requiring `n_splits + 1 ≤ n_samples`). -/
def tscv_accepts (n_samples n_splits : Nat) : Prop :=
  2 ≤ n_splits ∧ n_splits + 1 ≤ n_samples

/-- Embedding of `TimeSeriesSplit(n_splits=k).split(X)` over `N` samples
(lines 115, 121): test size `t = N / (k+1)`; fold `i` trains on
`[0, N - k*t + i*t)` and tests on the next `t` indices. -/
def tscv_split (n_samples n_splits : Nat) : List (List Nat × List Nat) :=
  let t := n_samples / (n_splits + 1)
  (List.range n_splits).map fun i =>
    (List.range (n_samples - n_splits * t + i * t),
     List.range' (n_samples - n_splits * t + i * t) t)

/-- Scalar metrics of one fold (lines 129-135). -/
structure FoldMetrics where
  accuracy : Rat
  precisionScore : Rat
  recallScore : Rat
  f1 : Rat
  auc : Rat
deriving DecidableEq, Repr

/-- Count of positions where the two label vectors agree. -/
def countAgree (yt yp : List Nat) : Nat :=
  ((yt.zip yp).filter fun p => p.1 == p.2).length

/-- True positives: label 1 predicted 1. -/
def countTP (yt yp : List Nat) : Nat :=
  ((yt.zip yp).filter fun p => p.1 == 1 && p.2 == 1).length

/-- False positives: label 0 predicted 1. -/
def countFP (yt yp : List Nat) : Nat :=
  ((yt.zip yp).filter fun p => p.1 != 1 && p.2 == 1).length

/-- False negatives: label 1 predicted 0. -/
def countFN (yt yp : List Nat) : Nat :=
  ((yt.zip yp).filter fun p => p.1 == 1 && p.2 != 1).length

/-- sklearn `accuracy_score` (line 130). -/
def accuracy_score (yt yp : List Nat) : Rat :=
  (countAgree yt yp : Rat) / (yt.length : Rat)

/-- sklearn `precision_score` (line 131); 0 when nothing is predicted
positive (sklearn default `zero_division` behaviour). -/
def precision_score (yt yp : List Nat) : Rat :=
  if countTP yt yp + countFP yt yp = 0 then 0
  else (countTP yt yp : Rat) / ((countTP yt yp + countFP yt yp : Nat) : Rat)

/-- sklearn `recall_score` (line 132); 0 when there is no positive label. -/
def recall_score (yt yp : List Nat) : Rat :=
  if countTP yt yp + countFN yt yp = 0 then 0
  else (countTP yt yp : Rat) / ((countTP yt yp + countFN yt yp : Nat) : Rat)

/-- sklearn `f1_score` (line 133): harmonic mean of precision and recall,
0 when both vanish. -/
def f1_score (yt yp : List Nat) : Rat :=
  if precision_score yt yp + recall_score yt yp = 0 then 0
  else 2 * precision_score yt yp * recall_score yt yp /
    (precision_score yt yp + recall_score yt yp)

/-- Probability scores of the positive-class test rows, used by
`roc_auc_score` (line 134).  With only one class present in `y_true`
sklearn raises
`ValueError: Only one class present in y_true. ROC AUC score is not
defined in that case.`; otherwise the AUC is the Mann-Whitney statistic of
the probability scores. -/
def posScores (yt : List Nat) (proba : List Rat) : List Rat :=
  ((yt.zip proba).filter fun p => p.1 == 1).map Prod.snd

/-- Probability scores of the negative-class test rows. -/
def negScores (yt : List Nat) (proba : List Rat) : List Rat :=
  ((yt.zip proba).filter fun p => p.1 != 1).map Prod.snd

/-- sklearn `roc_auc_score` computation (line 134), split into the error
branch (single class) and the Mann-Whitney AUC value. -/
def roc_auc_score (yt : List Nat) (proba : List Rat) : Except String Rat :=
  if (posScores yt proba).length = 0 ∨ (negScores yt proba).length = 0 then
    Except.error "ValueError: Only one class present in y_true. ROC AUC score is not defined in that case."
  else
    Except.ok
      ((((posScores yt proba).map fun p =>
          ((negScores yt proba).map fun q =>
            if q < p then (1 : Rat) else if q = p then 1 / 2 else 0).sum).sum) /
        (((posScores yt proba).length : Rat) * ((negScores yt proba).length : Rat)))

/-- Metric dictionary of one fold (lines 129-135): the dict literal is
built in one expression, so a `ValueError` from `roc_auc_score` aborts the
whole fold (and run); no metric row is produced for it. -/
def fold_metrics (y_test y_pred : List Nat) (y_proba : List Rat) :
    Except String FoldMetrics :=
  match roc_auc_score y_test y_proba with
  | Except.error e => Except.error e
  | Except.ok a =>
    Except.ok
      { accuracy := accuracy_score y_test y_pred
        precisionScore := precision_score y_test y_pred
        recallScore := recall_score y_test y_pred
        f1 := f1_score y_test y_pred
        auc := a }

/-- Model instances touched by one run, by allocation index. -/
structure ModelUsage where
  created : Nat
  foldModels : List Nat
  fullModel : Nat
deriving DecidableEq, Repr

/-- Model-instance lifecycle of a run (lines 116, 125, 157):
`select_model` is called exactly once, before the fold loop (line 116),
allocating the single instance 0; every fold's `model.fit` (line 125) and
the full-sample `model.fit` for the ROC tab (line 157) reuse instance 0. -/
def run_model_instances (n_folds : Nat) : ModelUsage :=
  { created := 1
    foldModels := (List.range n_folds).map fun _ => 0
    fullModel := 0 }

/-! Helper lemmas about `prepare_features`. -/

theorem filterMap_eq_map_of_some {α β : Type} (f : α → Option β) (g : α → β)
    (l : List α) (h : ∀ x ∈ l, f x = some (g x)) : l.filterMap f = l.map g := by
  induction l with
  | nil => rfl
  | cons a l ih =>
    rw [List.filterMap_cons, h a (by simp), List.map_cons,
      ih fun x hx => h x (by simp [hx])]

theorem lagValues_eq_some (proj : AlignedRecord → Rat) (df : List AlignedRecord)
    (i : Nat) (lags : List Nat) (h : ∀ k ∈ lags, i + k < df.length) :
    lagValues proj df i lags =
      some (lags.map fun k => proj (df.getD (i + k) default)) := by
  induction lags with
  | nil => rfl
  | cons k ks ih =>
    have hk : i + k < df.length := h k (by simp)
    have hsome : df[i + k]? = some (df.getD (i + k) default) := by
      rw [List.getD_eq_getElem?_getD, List.getElem?_eq_getElem hk]
      rfl
    rw [lagValues, hsome, ih fun x hx => h x (by simp [hx])]
    simp

theorem lagValues_eq_none (proj : AlignedRecord → Rat) (df : List AlignedRecord)
    (i : Nat) (lags : List Nat) (k : Nat) (hk : k ∈ lags)
    (h : df.length ≤ i + k) : lagValues proj df i lags = none := by
  induction lags with
  | nil => cases hk
  | cons a as ih =>
    rcases List.mem_cons.mp hk with h1 | h2
    · subst h1
      rw [lagValues, List.getElem?_eq_none h]
    · rw [lagValues]
      cases hv : df[i + a]? with
      | none => rfl
      | some v => rw [ih h2]

theorem buildRow_eq_some (df : List AlignedRecord) (lags : List Nat) (i : Nat)
    (hi : i < df.length) (h : ∀ k ∈ lags, i + k < df.length) :
    buildRow df lags i = some (featureRowAt df lags i) := by
  have hr : df[i]? = some (df.getD i default) := by
    rw [List.getD_eq_getElem?_getD, List.getElem?_eq_getElem hi]
    rfl
  rw [buildRow, hr, lagValues_eq_some AlignedRecord.goog_ret df i lags h,
    lagValues_eq_some AlignedRecord.sp_ret df i lags h]
  rfl

theorem buildRow_eq_none (df : List AlignedRecord) (lags : List Nat) (i : Nat)
    (k : Nat) (hk : k ∈ lags) (h : df.length ≤ i + k) :
    buildRow df lags i = none := by
  cases hr : df[i]? with
  | none => rw [buildRow, hr]
  | some r =>
    rw [buildRow, hr, lagValues_eq_none AlignedRecord.goog_ret df i lags k hk h]

theorem prepare_features_rows (df : List AlignedRecord) (lags : List Nat)
    (m : Nat) (hm : m ∈ lags) (hmax : ∀ k ∈ lags, k ≤ m)
    (hN : m < df.length) :
    (prepare_features df lags).1 =
      (List.range (df.length - m)).map (featureRowAt df lags) := by
  obtain ⟨c, hc⟩ : ∃ c, df.length = c + m := ⟨df.length - m, by omega⟩
  have h1 : (prepare_features df lags).1 =
      (List.range df.length).filterMap (buildRow df lags) := rfl
  rw [h1, hc, Nat.add_sub_cancel, List.range_add, List.filterMap_append]
  have h2 : (List.range c).filterMap (buildRow df lags) =
      (List.range c).map (featureRowAt df lags) := by
    apply filterMap_eq_map_of_some
    intro i hi
    have hi2 : i < c := List.mem_range.mp hi
    apply buildRow_eq_some
    · omega
    · intro k hk
      have := hmax k hk
      omega
  have h3 : ((List.range m).map fun x => c + x).filterMap (buildRow df lags)
      = [] := by
    apply List.filterMap_eq_nil_iff.mpr
    intro i hi
    simp only [List.mem_map, List.mem_range] at hi
    obtain ⟨x, _, rfl⟩ := hi
    exact buildRow_eq_none df lags (c + x) m hm (by omega)
  rw [h2, h3, List.append_nil]

/-- C1: for every lag set with all lags positive and every aligned-record
sequence longer than the maximal lag `m`, `prepare_features` returns
exactly `length - m` records, and the record at position `i` carries, for
each lag `k`, the target and index returns stored `k` positions further
down the descending-ordered sequence (position `i + k`), every such
position being inside the sequence. -/
theorem prepare_features_lag_correct (df : List AlignedRecord)
    (lags : List Nat) (m : Nat) (hpos : ∀ k ∈ lags, 0 < k) (hm : m ∈ lags)
    (hmax : ∀ k ∈ lags, k ≤ m) (hN : m < df.length) :
    (prepare_features df lags).1.length = df.length - m ∧
    ∀ i, i < df.length - m →
      (∀ k ∈ lags, i + k < df.length) ∧
      (prepare_features df lags).1[i]? = some (featureRowAt df lags i) := by
  have hrows := prepare_features_rows df lags m hm hmax hN
  constructor
  · rw [hrows, List.length_map, List.length_range]
  · intro i hi
    constructor
    · intro k hk
      have := hmax k hk
      omega
    · rw [hrows, List.getElem?_map, List.getElem?_range hi]
      rfl

/-- Witness for C1: two aligned records, lag set `{1}`; one feature record
survives. -/
theorem prepare_features_lag_correct_witness :
    (1 ∈ ([1] : List Nat)) ∧
    (prepare_features [⟨0, 1, 1, 1, 1⟩, ⟨1, 1, 1, 1, 1⟩] [1]).1.length = 1 :=
  ⟨by decide,
    (prepare_features_lag_correct [⟨0, 1, 1, 1, 1⟩, ⟨1, 1, 1, 1, 1⟩] [1] 1
      (by decide) (by decide) (by decide) (by decide)).1⟩

/-- C10: with an empty lag set, `prepare_features` drops no row (there is
no lag column that could be undefined): it returns all input records, in
order, with empty feature vectors, and an empty feature-name list. -/
theorem prepare_features_empty_lags (df : List AlignedRecord) :
    (prepare_features df []).1.length = df.length ∧
    (prepare_features df []).2 = [] ∧
    ∀ i, i < df.length →
      (prepare_features df []).1[i]? = some (featureRowAt df [] i) := by
  have h1 : (prepare_features df []).1 =
      (List.range df.length).filterMap (buildRow df []) := rfl
  have hrows : (prepare_features df []).1 =
      (List.range df.length).map (featureRowAt df []) := by
    rw [h1]
    exact filterMap_eq_map_of_some _ _ _ fun i hi =>
      buildRow_eq_some df [] i (List.mem_range.mp hi) (by simp)
  refine ⟨by rw [hrows, List.length_map, List.length_range], rfl, ?_⟩
  intro i hi
  rw [hrows, List.getElem?_map, List.getElem?_range hi]
  rfl

/-- Witness for C10: a one-record input with the empty lag set keeps its
single row. -/
theorem prepare_features_empty_lags_witness :
    (0 : Nat) < 1 ∧
    (prepare_features [⟨0, 1, 1, 1, 1⟩] []).1[0]? =
      some (featureRowAt [⟨0, 1, 1, 1, 1⟩] [] 0) :=
  ⟨by decide, (prepare_features_empty_lags [⟨0, 1, 1, 1, 1⟩]).2.2 0 (by decide)⟩

/-- C7 counterexample: with the lags supplied as `[2, 1]`,
`prepare_features` lists the feature names in the supplied order
`goog_lag2, goog_lag1, sp_lag2, sp_lag1`, not in ascending lag order as
the claim states. -/
theorem prepare_features_names_cex :
    (prepare_features [] [2, 1]).2 =
      ["goog_lag2", "goog_lag1", "sp_lag2", "sp_lag1"] ∧
    (prepare_features [] [2, 1]).2 ≠
      ["goog_lag1", "goog_lag2", "sp_lag1", "sp_lag2"] := by
  constructor
  · rfl
  · intro h
    rw [show (prepare_features [] [2, 1]).2 =
      ["goog_lag2", "goog_lag1", "sp_lag2", "sp_lag1"] from rfl] at h
    exact absurd h (by decide)

/-- C7 amended: the feature-name list holds all target-lag columns first
and then all index-lag columns, each half in the order in which the lags
were supplied (hence ascending only when the lags are supplied in
ascending order). -/
theorem prepare_features_names (df : List AlignedRecord) (lags : List Nat) :
    (prepare_features df lags).2.length = 2 * lags.length ∧
    ∀ i k, lags[i]? = some k →
      (prepare_features df lags).2[i]? = some ("goog_lag" ++ toString k) ∧
      (prepare_features df lags).2[lags.length + i]? =
        some ("sp_lag" ++ toString k) := by
  have h2 : (prepare_features df lags).2 =
      (lags.map fun k => "goog_lag" ++ toString k) ++
        (lags.map fun k => "sp_lag" ++ toString k) := rfl
  constructor
  · rw [h2, List.length_append, List.length_map, List.length_map]
    omega
  · intro i k hik
    have hi : i < lags.length := by
      by_contra hge
      rw [List.getElem?_eq_none (by omega)] at hik
      cases hik
    constructor
    · rw [h2, List.getElem?_append, List.length_map, if_pos hi,
        List.getElem?_map, hik]
      rfl
    · rw [h2, List.getElem?_append_right (by rw [List.length_map]; omega),
        List.length_map, Nat.add_sub_cancel_left, List.getElem?_map, hik]
      rfl

/-- Witness for C7 amended: lags supplied as `[2, 1]`; position 0 holds
the target-lag name for lag 2. -/
theorem prepare_features_names_witness :
    (([2, 1] : List Nat)[0]? = some 2) ∧
    (prepare_features [] [2, 1]).2[0]? = some ("goog_lag" ++ toString 2) :=
  ⟨by decide, ((prepare_features_names [] [2, 1]).2 0 2 (by decide)).1⟩

/-! Helper lemmas about `tscv_split`. -/

theorem tscv_test_size_pos (N k : Nat) (hacc : tscv_accepts N k) :
    1 ≤ N / (k + 1) :=
  (Nat.one_le_div_iff (by omega)).mpr hacc.2

theorem tscv_split_getElem (N k : Nat) (i : Nat) (hi : i < k) :
    (tscv_split N k)[i]? =
      some (List.range (N - k * (N / (k + 1)) + i * (N / (k + 1))),
        List.range' (N - k * (N / (k + 1)) + i * (N / (k + 1)))
          (N / (k + 1))) := by
  rw [tscv_split, List.getElem?_map, List.getElem?_range hi]
  rfl

/-- C2: for every accepted sample count and fold count, the splitter
produces exactly `k` folds; each fold's test set is the contiguous block
of `t = N / (k+1)` indices starting at `N - k*t + i*t` and its training
set is the prefix `[0, start)`, so every training index is strictly below
every index of the fold's own test block; test blocks of distinct folds
are disjoint, and a later fold's whole test block lies strictly above an
earlier fold's (folds come in increasing start order). -/
theorem tscv_split_spec (N k : Nat) (hacc : tscv_accepts N k) :
    (tscv_split N k).length = k ∧
    (∀ i, i < k →
      (tscv_split N k)[i]? =
        some (List.range (N - k * (N / (k + 1)) + i * (N / (k + 1))),
          List.range' (N - k * (N / (k + 1)) + i * (N / (k + 1)))
            (N / (k + 1)))) ∧
    (∀ (i : Nat) (fi : List Nat × List Nat), (tscv_split N k)[i]? = some fi →
      ∀ x ∈ fi.1, ∀ y ∈ fi.2, x < y) ∧
    (∀ (i j : Nat) (fi fj : List Nat × List Nat), i < j →
      (tscv_split N k)[i]? = some fi →
      (tscv_split N k)[j]? = some fj →
      (∀ x ∈ fi.2, x ∉ fj.2) ∧ ∀ x ∈ fi.2, ∀ y ∈ fj.2, x < y) := by
  have hlen : (tscv_split N k).length = k := by
    rw [tscv_split, List.length_map, List.length_range]
  have hidx := tscv_split_getElem N k
  refine ⟨hlen, fun i hi => hidx i hi, ?_, ?_⟩
  · intro i fi hfi x hx y hy
    have hi : i < k := by
      have := (List.getElem?_eq_some.mp hfi).1
      omega
    rw [hidx i hi] at hfi
    cases hfi
    have hx2 := List.mem_range.mp hx
    have hy2 := (List.mem_range'_1.mp hy).1
    omega
  · intro i j fi fj hij hfi hfj
    have hj : j < k := by
      have := (List.getElem?_eq_some.mp hfj).1
      omega
    have hi : i < k := by omega
    rw [hidx i hi] at hfi
    rw [hidx j hj] at hfj
    cases hfi
    cases hfj
    have hmul : (i + 1) * (N / (k + 1)) ≤ j * (N / (k + 1)) :=
      Nat.mul_le_mul_right _ (by omega)
    have hlt : ∀ x ∈ List.range' (N - k * (N / (k + 1)) + i * (N / (k + 1)))
        (N / (k + 1)),
        ∀ y ∈ List.range' (N - k * (N / (k + 1)) + j * (N / (k + 1)))
          (N / (k + 1)), x < y := by
      intro x hx y hy
      have hx2 := List.mem_range'_1.mp hx
      have hy2 := List.mem_range'_1.mp hy
      have : (i + 1) * (N / (k + 1)) = i * (N / (k + 1)) + N / (k + 1) := by
        ring
      omega
    exact ⟨fun x hx hmem => absurd rfl (Nat.ne_of_lt (hlt x hx x hmem)),
      hlt⟩

/-- Witness for C2: `N = 10`, `k = 3` is accepted; the splitter produces
3 folds. -/
theorem tscv_split_spec_witness :
    tscv_accepts 10 3 ∧ (tscv_split 10 3).length = 3 :=
  ⟨⟨by decide, by decide⟩, (tscv_split_spec 10 3 ⟨by decide, by decide⟩).1⟩

/-- Concatenation of the contiguous test blocks is itself a contiguous
range. -/
theorem range'_blocks_flatten (s0 t : Nat) (j : Nat) :
    ((List.range j).map fun i => List.range' (s0 + i * t) t).flatten =
      List.range' s0 (j * t) := by
  induction j with
  | zero => simp
  | succ n ih =>
    rw [List.range_succ, List.map_append, List.flatten_append, ih]
    have h1 : ((([n].map fun i => List.range' (s0 + i * t) t)).flatten) =
        List.range' (s0 + n * t) t := by simp
    rw [h1]
    have h2 : (n + 1) * t = t + n * t := by ring
    rw [h2, ← List.range'_append s0 (n * t) t 1]
    simp

/-- C6: concatenating all fold test blocks in fold order yields the
contiguous, already sorted ascending, integer range that starts right
after the initial training prefix and ends at `N - 1`: every held-out row
appears exactly once and none is skipped. -/
theorem tscv_split_concat (N k : Nat) (hacc : tscv_accepts N k) :
    ((tscv_split N k).map Prod.snd).flatten =
      List.range' (N - k * (N / (k + 1))) (k * (N / (k + 1))) ∧
    List.Pairwise (fun a b => a < b)
      (((tscv_split N k).map Prod.snd).flatten) ∧
    (((tscv_split N k).map Prod.snd).flatten).getLast? = some (N - 1) := by
  have ht := tscv_test_size_pos N k hacc
  have hflat : ((tscv_split N k).map Prod.snd).flatten =
      List.range' (N - k * (N / (k + 1))) (k * (N / (k + 1))) := by
    rw [tscv_split, List.map_map]
    exact range'_blocks_flatten (N - k * (N / (k + 1))) (N / (k + 1)) k
  refine ⟨hflat, ?_, ?_⟩
  · rw [hflat]
    exact List.pairwise_lt_range' _ _
  · rw [hflat, List.getLast?_range']
    have hkt : k * (N / (k + 1)) ≠ 0 := by
      have : 1 ≤ N / (k + 1) := ht
      have h2 : 2 ≤ k := hacc.1
      positivity
    rw [if_neg hkt]
    have hle : N / (k + 1) * (k + 1) ≤ N := Nat.div_mul_le_self N (k + 1)
    have heq : N / (k + 1) * (k + 1) = k * (N / (k + 1)) + N / (k + 1) := by
      ring
    have : N - k * (N / (k + 1)) + k * (N / (k + 1)) - 1 = N - 1 := by
      omega
    rw [this]

/-- Witness for C6: `N = 10`, `k = 3`; the held-out rows are `4..9` and
the last one is `9 = N - 1`. -/
theorem tscv_split_concat_witness :
    tscv_accepts 10 3 ∧
    (((tscv_split 10 3).map Prod.snd).flatten).getLast? = some (10 - 1) :=
  ⟨⟨by decide, by decide⟩,
    (tscv_split_concat 10 3 ⟨by decide, by decide⟩).2.2⟩

/-! Degenerate folds (C4). -/

/-- C4 counterexample: on a fold whose test labels are constant 1 the run
fails with the metric library's `ValueError`, not with a
`DegenerateFoldError` (no such error exists anywhere in the code). -/
theorem fold_metrics_cex :
    fold_metrics [1, 1] [0, 1] [1 / 2, 1 / 2] =
      Except.error "ValueError: Only one class present in y_true. ROC AUC score is not defined in that case." ∧
    fold_metrics [1, 1] [0, 1] [1 / 2, 1 / 2] ≠
      Except.error "DegenerateFoldError" := by
  refine ⟨rfl, fun h => ?_⟩
  rw [show fold_metrics [1, 1] [0, 1] [1 / 2, 1 / 2] =
    Except.error "ValueError: Only one class present in y_true. ROC AUC score is not defined in that case." from rfl] at h
  have h2 : "ValueError: Only one class present in y_true. ROC AUC score is not defined in that case." = "DegenerateFoldError" := by
    injection h
  exact absurd h2 (by decide)

/-- C4 amended: for every fold whose test set holds a single class, the
per-fold metric computation does not produce a metric row: it fails with
the `ValueError` that sklearn's `roc_auc_score` raises (line 134), which
aborts the evaluation loop; the code never raises a
`DegenerateFoldError`. -/
theorem fold_metrics_one_class (y_test y_pred : List Nat) (y_proba : List Rat)
    (hone : (∀ y ∈ y_test, y = 1) ∨ (∀ y ∈ y_test, y ≠ 1)) :
    fold_metrics y_test y_pred y_proba =
      Except.error "ValueError: Only one class present in y_true. ROC AUC score is not defined in that case." := by
  have hroc : roc_auc_score y_test y_proba =
      Except.error "ValueError: Only one class present in y_true. ROC AUC score is not defined in that case." := by
    rcases hone with h1 | h0
    · have hneg : negScores y_test y_proba = [] := by
        rw [negScores, List.map_eq_nil_iff, List.filter_eq_nil_iff]
        intro p hp
        have := (List.of_mem_zip (Prod.mk.eta (p := p) ▸ hp)).1
        simp [h1 p.1 this]
      rw [roc_auc_score, if_pos (Or.inr (by rw [hneg]; rfl))]
    · have hpos : posScores y_test y_proba = [] := by
        rw [posScores, List.map_eq_nil_iff, List.filter_eq_nil_iff]
        intro p hp
        have := (List.of_mem_zip (Prod.mk.eta (p := p) ▸ hp)).1
        simp [h0 p.1 this]
      rw [roc_auc_score, if_pos (Or.inl (by rw [hpos]; rfl))]
  rw [fold_metrics, hroc]

/-- Witness for C4 amended: a constant-1 test fold yields the
`ValueError`. -/
theorem fold_metrics_one_class_witness :
    (∀ y ∈ ([1, 1] : List Nat), y = 1) ∧
    fold_metrics [1, 1] [1, 1] [1 / 2, 1 / 2] =
      Except.error "ValueError: Only one class present in y_true. ROC AUC score is not defined in that case." :=
  ⟨by decide, fold_metrics_one_class [1, 1] [1, 1] [1 / 2, 1 / 2]
    (Or.inl (by decide))⟩

/-! Model-instance reuse (C5). -/

/-- C5 counterexample: with 2 folds the two fold fits use the same model
instance, and the full-sample fit uses that instance again, so neither
are the fold models pairwise fresh nor is the full-sample model distinct
from them. -/
theorem run_model_instances_cex :
    ¬ ((run_model_instances 2).foldModels.Nodup ∧
      (run_model_instances 2).fullModel ∉
        (run_model_instances 2).foldModels) := by decide

/-- C5 amended: `select_model` is called exactly once per run (line 116);
every fold's fit and the full-sample fit reuse that single instance, so
model state is carried across folds and into the ROC/importance fit
instead of being fresh per fold. -/
theorem run_model_instances_single (n_folds : Nat) :
    (run_model_instances n_folds).created = 1 ∧
    (run_model_instances n_folds).foldModels.length = n_folds ∧
    ∀ mid ∈ (run_model_instances n_folds).foldModels,
      mid = (run_model_instances n_folds).fullModel := by
  refine ⟨rfl, by rw [run_model_instances, List.length_map, List.length_range],
    ?_⟩
  intro mid hmid
  rcases List.mem_map.mp hmid with ⟨x, _, h⟩
  exact h.symm

/-- Witness for C5 amended: with 3 folds, instance 0 is a fold model and
equals the full-fit model. -/
theorem run_model_instances_single_witness :
    (0 ∈ (run_model_instances 3).foldModels) ∧
    0 = (run_model_instances 3).fullModel :=
  ⟨by decide, (run_model_instances_single 3).2.2 0 (by decide)⟩

/-! Empty join (C8). -/

/-- C8 counterexample: with two one-row series sharing no date,
`load_data` returns the empty aligned-record sequence — exactly the
silent fallback the claim rules out; no `EmptyJoinError` exists in the
code, so nothing is raised. -/
theorem load_data_no_common_cex :
    load_data [⟨1, 10⟩] [⟨2, 20⟩] = [] := by decide

/-- C8 amended: for every pair of series with no common date, `load_data`
silently returns the empty aligned-record sequence; the code defines no
`EmptyJoinError` and raises nothing. -/
theorem load_data_no_common (g s : List PricePoint)
    (h : ∀ gp ∈ g, ∀ sp ∈ s, gp.date ≠ sp.date) :
    load_data g s = [] := by
  have hmerge : merge g s = [] := by
    rw [merge, List.flatMap_eq_nil_iff]
    intro gp hgp
    rw [List.map_eq_nil_iff, List.filter_eq_nil_iff]
    intro sp hsp
    simp only [beq_iff_eq]
    exact fun hh => h gp hgp sp hsp hh.symm
  rw [load_data, hmerge]
  rfl

/-- Witness for C8 amended: disjoint singleton series produce the empty
output. -/
theorem load_data_no_common_witness :
    ((5 : Int) ≠ 7) ∧ load_data [⟨5, 10⟩] [⟨7, 20⟩] = [] :=
  ⟨by decide, load_data_no_common [⟨5, 10⟩] [⟨7, 20⟩] (by decide)⟩

/-! Helper lemmas about `merge`, `sortByDateDesc` and `computeReturns`
(C3). -/

theorem mem_merge_iff (g s : List PricePoint) (r : MergedRow) :
    r ∈ merge g s ↔ ∃ gp ∈ g, ∃ sp ∈ s, sp.date = gp.date ∧
      r = ⟨gp.date, gp.price, sp.price⟩ := by
  constructor
  · intro h
    rcases List.mem_flatMap.mp h with ⟨gp, hgp, hin⟩
    rcases List.mem_map.mp hin with ⟨sp, hsp, rfl⟩
    exact ⟨gp, hgp, sp, (List.mem_filter.mp hsp).1,
      beq_iff_eq.mp (List.mem_filter.mp hsp).2, rfl⟩
  · rintro ⟨gp, hgp, sp, hsp, hd, rfl⟩
    exact List.mem_flatMap.mpr ⟨gp, hgp,
      List.mem_map.mpr ⟨sp, List.mem_filter.mpr ⟨hsp, beq_iff_eq.mpr hd⟩,
        rfl⟩⟩

theorem length_filter_date (s : List PricePoint) (d : Int) :
    (s.filter fun sp => sp.date == d).length =
      (s.map PricePoint.date).count d := by
  rw [List.count_eq_countP, List.countP_map, ← List.countP_eq_length_filter]
  rfl

theorem merge_map_date (g s : List PricePoint)
    (hs : (s.map PricePoint.date).Nodup) :
    (merge g s).map (fun r => r.date) =
      (g.map PricePoint.date).filter
        fun d => decide (d ∈ s.map PricePoint.date) := by
  induction g with
  | nil => rfl
  | cons gp g' ih =>
    have hsplit : merge (gp :: g') s =
        ((s.filter fun sp => sp.date == gp.date).map fun sp =>
          ⟨gp.date, gp.price, sp.price⟩) ++ merge g' s := by
      rw [merge, List.flatMap_cons]
      rfl
    rw [hsplit, List.map_append, ih, List.map_map, List.map_cons,
      List.filter_cons]
    have hconst : ((s.filter fun sp => sp.date == gp.date).map
        ((fun r : MergedRow => r.date) ∘ fun sp =>
          (⟨gp.date, gp.price, sp.price⟩ : MergedRow))) =
        List.replicate (s.filter fun sp => sp.date == gp.date).length
          gp.date := List.map_const' _ _
    rw [hconst, length_filter_date s gp.date]
    by_cases hmem : gp.date ∈ s.map PricePoint.date
    · have h1 : (s.map PricePoint.date).count gp.date = 1 := by
        have hle := List.nodup_iff_count_le_one.mp hs gp.date
        have hpos : (s.map PricePoint.date).count gp.date ≠ 0 :=
          fun h0 => (List.count_eq_zero.mp h0) hmem
        omega
      rw [h1, if_pos (by simpa using hmem)]
      rfl
    · have h0 : (s.map PricePoint.date).count gp.date = 0 :=
        List.count_eq_zero.mpr hmem
      rw [h0, if_neg (by simpa using hmem)]
      rfl

theorem sorted_merge_nodup_dates (g s : List PricePoint)
    (hg : (g.map PricePoint.date).Nodup)
    (hs : (s.map PricePoint.date).Nodup) :
    ((sortByDateDesc (merge g s)).map fun r => r.date).Nodup := by
  have hperm : (sortByDateDesc (merge g s)).Perm (merge g s) :=
    List.perm_insertionSort _ _
  rw [(hperm.map fun r => r.date).nodup_iff, merge_map_date g s hs]
  exact hg.filter _

theorem sorted_merge_pairwise (g s : List PricePoint)
    (hg : (g.map PricePoint.date).Nodup)
    (hs : (s.map PricePoint.date).Nodup) :
    List.Pairwise (fun a b : MergedRow => b.date < a.date)
      (sortByDateDesc (merge g s)) := by
  have hsort : List.Pairwise dateDesc (sortByDateDesc (merge g s)) :=
    List.sorted_insertionSort dateDesc (merge g s)
  have hne : List.Pairwise (fun a b : MergedRow => a.date ≠ b.date)
      (sortByDateDesc (merge g s)) :=
    List.pairwise_map.mp (sorted_merge_nodup_dates g s hg hs)
  exact (hsort.and hne).imp fun h => lt_of_le_of_ne h.1 (Ne.symm h.2)

theorem sortByDateDesc_ne_nil (g s : List PricePoint)
    (hc : ∃ d, d ∈ g.map PricePoint.date ∧ d ∈ s.map PricePoint.date) :
    sortByDateDesc (merge g s) ≠ [] := by
  rcases hc with ⟨d, hdg, hds⟩
  rcases List.mem_map.mp hdg with ⟨gp, hgp, rfl⟩
  rcases List.mem_map.mp hds with ⟨sp, hsp, hspd⟩
  have hmem : (⟨gp.date, gp.price, sp.price⟩ : MergedRow) ∈ merge g s :=
    (mem_merge_iff g s _).mpr ⟨gp, hgp, sp, hsp, hspd, rfl⟩
  intro h
  have hperm := List.perm_insertionSort dateDesc (merge g s)
  rw [sortByDateDesc] at h
  rw [h] at hperm
  exact List.ne_nil_of_mem hmem hperm.nil_eq.symm

theorem computeReturnsFrom_length (p : MergedRow) (l : List MergedRow) :
    (computeReturnsFrom p l).length = l.length := by
  induction l generalizing p with
  | nil => rfl
  | cons x xs ih => simp [computeReturnsFrom, ih]

theorem computeReturnsFrom_getElem (p : MergedRow) (l : List MergedRow)
    (i : Nat) (hi : i < l.length) :
    (computeReturnsFrom p l)[i]? =
      some (mkReturnRow ((p :: l).getD i default) (l.getD i default)) := by
  induction l generalizing p i with
  | nil => simp at hi
  | cons x xs ih =>
    cases i with
    | zero => simp [computeReturnsFrom, List.getD_cons_zero]
    | succ n =>
      have hn : n < xs.length := by simpa using hi
      rw [computeReturnsFrom, List.getElem?_cons_succ, ih x n hn,
        List.getD_cons_succ, List.getD_cons_succ]

theorem computeReturnsFrom_mem (p : MergedRow) (l : List MergedRow)
    (r : AlignedRecord) (h : r ∈ computeReturnsFrom p l) :
    ∃ cur ∈ l, r.date = cur.date ∧ r.goog_price = cur.goog_price ∧
      r.sp_price = cur.sp_price := by
  induction l generalizing p with
  | nil => cases h
  | cons x xs ih =>
    rcases List.mem_cons.mp h with h1 | h2
    · exact ⟨x, by simp, by subst h1; exact ⟨rfl, rfl, rfl⟩⟩
    · rcases ih x h2 with ⟨cur, hcur, hh⟩
      exact ⟨cur, by simp [hcur], hh⟩

theorem computeReturnsFrom_pairwise (p : MergedRow) (l : List MergedRow)
    (h : List.Pairwise (fun a b : MergedRow => b.date < a.date) l) :
    List.Pairwise (fun a b : AlignedRecord => b.date < a.date)
      (computeReturnsFrom p l) := by
  induction l generalizing p with
  | nil => exact List.Pairwise.nil
  | cons x xs ih =>
    rw [computeReturnsFrom]
    refine List.Pairwise.cons ?_ (ih x (h.of_cons))
    intro r hr
    rcases computeReturnsFrom_mem x xs r hr with ⟨cur, hcur, hd, _⟩
    have := List.rel_of_pairwise_cons h hcur
    rw [hd]
    exact this

theorem getD_eq_getElem_of_lt {α : Type} (l : List α) (d : α) (i : Nat)
    (h : i < l.length) : l.getD i d = l[i] := by
  rw [List.getD_eq_getElem?_getD, List.getElem?_eq_getElem h]
  rfl

/-- C3 counterexample: prices 10 (date 1) and 20 (date 2) for the target,
constant 5 for the index.  The claim predicts that the earliest row
(date 1) is dropped and that the kept row (date 2) carries return
`20/10 - 1 = 1` against the chronologically prior price.  The code keeps
the earliest date and computes `10/20 - 1 = -1/2` against the
chronologically later price, and drops the most recent row (date 2). -/
theorem load_data_cex :
    load_data [⟨1, 10⟩, ⟨2, 20⟩] [⟨1, 5⟩, ⟨2, 5⟩] =
      [{ date := 1, goog_price := 10, sp_price := 5,
         goog_ret := -(1 / 2), sp_ret := 0 }] ∧
    (load_data [⟨1, 10⟩, ⟨2, 20⟩] [⟨1, 5⟩, ⟨2, 5⟩]).map
      (fun r => r.date) ≠ [2] := by
  have h1 : load_data [⟨1, 10⟩, ⟨2, 20⟩] [⟨1, 5⟩, ⟨2, 5⟩] =
      [{ date := 1, goog_price := 10, sp_price := 5,
         goog_ret := -(1 / 2), sp_ret := 0 }] := by
    show [mkReturnRow ⟨2, 20, 5⟩ ⟨1, 10, 5⟩] = _
    rw [mkReturnRow]
    norm_num
  refine ⟨h1, ?_⟩
  rw [h1]
  decide

/-- C3 amended: `load_data` returns only dates present in both series,
sorted strictly descending; exactly one joined row is dropped for having
an undefined return, namely the row with the MOST RECENT common date (not
the earliest); and each record's per-series return is
`price[t] / price[t'] - 1` where `t'` is the adjacent MORE RECENT common
date (the chronologically next observation, not the prior one), as shown
by the index relation against the descending-sorted joined frame. -/
theorem load_data_correct (g s : List PricePoint)
    (hg : (g.map PricePoint.date).Nodup) (hs : (s.map PricePoint.date).Nodup)
    (hc : ∃ d, d ∈ g.map PricePoint.date ∧ d ∈ s.map PricePoint.date) :
    (∀ r ∈ load_data g s, ∃ gp ∈ g, ∃ sp ∈ s,
      gp.date = r.date ∧ sp.date = r.date ∧ gp.price = r.goog_price ∧
        sp.price = r.sp_price) ∧
    List.Pairwise (fun a b : AlignedRecord => b.date < a.date)
      (load_data g s) ∧
    (load_data g s).length + 1 = (sortByDateDesc (merge g s)).length ∧
    (∀ r ∈ load_data g s,
      r.date < ((sortByDateDesc (merge g s)).getD 0 default).date) ∧
    ∀ i, i + 1 < (sortByDateDesc (merge g s)).length →
      (load_data g s)[i]? =
        some (mkReturnRow ((sortByDateDesc (merge g s)).getD i default)
          ((sortByDateDesc (merge g s)).getD (i + 1) default)) ∧
      ((sortByDateDesc (merge g s)).getD (i + 1) default).date <
        ((sortByDateDesc (merge g s)).getD i default).date := by
  have hne := sortByDateDesc_ne_nil g s hc
  have hpair := sorted_merge_pairwise g s hg hs
  have hperm : (sortByDateDesc (merge g s)).Perm (merge g s) :=
    List.perm_insertionSort _ _
  obtain ⟨top, rest, hms⟩ : ∃ top rest,
      sortByDateDesc (merge g s) = top :: rest := by
    cases h : sortByDateDesc (merge g s) with
    | nil => exact absurd h hne
    | cons a l => exact ⟨a, l, rfl⟩
  have hld : load_data g s = computeReturnsFrom top rest := by
    rw [load_data, hms]
    rfl
  have hmem2merge : ∀ r ∈ load_data g s, ∃ cur ∈ merge g s,
      cur ∈ rest ∧ r.date = cur.date ∧ r.goog_price = cur.goog_price ∧
        r.sp_price = cur.sp_price := by
    intro r hr
    rw [hld] at hr
    rcases computeReturnsFrom_mem top rest r hr with ⟨cur, hcur, hh⟩
    have hcurM : cur ∈ sortByDateDesc (merge g s) := by
      rw [hms]
      exact List.mem_cons_of_mem _ hcur
    exact ⟨cur, hperm.mem_iff.mp hcurM, hcur, hh⟩
  refine ⟨?_, ?_, ?_, ?_, ?_⟩
  · intro r hr
    rcases hmem2merge r hr with ⟨cur, hcurm, _, hd, hgpr, hspr⟩
    rcases (mem_merge_iff g s cur).mp hcurm with ⟨gp, hgp, sp, hsp, hspd, heq⟩
    refine ⟨gp, hgp, sp, hsp, ?_, ?_, ?_, ?_⟩
    · rw [hd, heq]
    · rw [hd, heq, hspd]
    · rw [hgpr, heq]
    · rw [hspr, heq]
  · rw [hld]
    apply computeReturnsFrom_pairwise
    rw [hms] at hpair
    exact hpair.of_cons
  · rw [hld, hms, computeReturnsFrom_length]
    rfl
  · intro r hr
    rcases hmem2merge r hr with ⟨cur, _, hcur, hd, _, _⟩
    rw [hms] at hpair
    rw [hms, List.getD_cons_zero, hd]
    exact List.rel_of_pairwise_cons hpair hcur
  · intro i hi
    rw [hms] at hi
    have hi2 : i < rest.length := by
      simpa using Nat.lt_of_succ_lt_succ (by simpa using hi)
    constructor
    · rw [hld, computeReturnsFrom_getElem top rest i hi2, hms,
        List.getD_cons_succ]
    · rw [hms] at hpair
      have hlt1 : i < (top :: rest).length := by simp; omega
      have hlt2 : i + 1 < (top :: rest).length := by simpa using hi
      rw [hms, getD_eq_getElem_of_lt _ _ _ hlt1,
        getD_eq_getElem_of_lt _ _ _ hlt2]
      exact List.pairwise_iff_getElem.mp hpair i (i + 1) hlt1 hlt2
        (by omega)

/-- Witness for C3 amended: the two-date example; the output has one
record and the sorted joined frame has two rows. -/
theorem load_data_correct_witness :
    ((1 : Int) ∈ ([⟨1, 10⟩, ⟨2, 20⟩] : List PricePoint).map
      PricePoint.date) ∧
    (load_data [⟨1, 10⟩, ⟨2, 20⟩] [⟨1, 5⟩, ⟨2, 5⟩]).length + 1 =
      (sortByDateDesc (merge [⟨1, 10⟩, ⟨2, 20⟩] [⟨1, 5⟩, ⟨2, 5⟩])).length :=
  ⟨by decide,
    (load_data_correct [⟨1, 10⟩, ⟨2, 20⟩] [⟨1, 5⟩, ⟨2, 5⟩] (by decide)
      (by decide) ⟨1, by decide, by decide⟩).2.2.1⟩

end LagApp
